import Mathlib

/-!
Verification development for the daily-notes-month-archiver Obsidian plugin
(src/src/main.ts).  The plugin's data and operations are shallowly embedded:

* Vault paths are modelled as lists of path segments (the source builds paths
  with the template `folder ++ "/" ++ monthYear ++ "/" ++ name`, which maps to
  list append of segments; segments themselves contain no slash).
* `moment` dates are modelled at day granularity: a calendar date `YMD`
  together with a day-number map `toRataDie`, since every date the plugin
  builds is a start-of-day moment and every comparison (`isBefore`) and
  subtraction (`subtract(_, "days")`) is at day granularity.
* `moment(basename, dateFormat, true)` (strict parsing) is modelled for the
  format-token subset DD, MM, YY, YYYY plus literal characters (the tokens the
  plugin's documentation mentions, e.g. "DD-MM-YY" and "YYYY-MM-DD"); strict
  parsing consumes the whole string or fails, and overflowing dates
  (month > 12, day > days-in-month) are invalid, as in moment strict mode.
* The host (Obsidian) collaborator operations used by `archiveNotes` are
  folder lookup, folder creation and file rename; the host also offers file
  deletion, which the plugin never calls.  Each filesystem mutation performed
  by a run is recorded in a trace of `FsOp` values.
-/

/-- Calendar date (year, month, day), the day-granularity content of a
`moment` value such as the plugin's parsed file dates and threshold. -/
structure YMD where
  year : Nat
  month : Nat
  day : Nat
deriving DecidableEq, Repr

/-- Gregorian leap-year rule, as used by moment for date validation. -/
def isLeapYear (y : Nat) : Bool :=
  (y % 4 == 0 && y % 100 != 0) || y % 400 == 0

/-- Number of days in a month of a given year. -/
def daysInMonth (y m : Nat) : Nat :=
  if m = 2 then (if isLeapYear y then 29 else 28)
  else if m = 4 ∨ m = 6 ∨ m = 9 ∨ m = 11 then 30
  else 31

/-- A parsed calendar date is valid when the month is 1..12 and the day fits
the month; moment strict parsing marks overflowing dates invalid. -/
def validYMD (x : YMD) : Bool :=
  1 ≤ x.month && x.month ≤ 12 && 1 ≤ x.day && x.day ≤ daysInMonth x.year x.month

/-- Day number of a calendar date (a shifted rata-die count).  Only
differences and comparisons of these numbers are ever used, mirroring
moment's `isBefore` and `subtract(_, "days")` at day granularity. -/
def toRataDie (x : YMD) : Int :=
  let y := if x.month ≤ 2 then x.year - 1 else x.year
  let m' := if 2 < x.month then x.month - 3 else x.month + 9
  let doy := (153 * m' + 2) / 5 + x.day - 1
  ((365 * y + y / 4 - y / 100 + y / 400 + doy : Nat) : Int)

/-- Two-digit zero-padded decimal rendering, as in moment's "MM"/"YY"/"DD"
output tokens. -/
def pad2 (n : Nat) : String :=
  if n < 10 then "0" ++ toString n else toString n

/-- Four-digit zero-padded decimal rendering, as in moment's "YYYY" output
token. -/
def pad4 (n : Nat) : String :=
  if n < 10 then "000" ++ toString n
  else if n < 100 then "00" ++ toString n
  else if n < 1000 then "0" ++ toString n
  else toString n

/-- `parsed.format("MM-YY")` from src/src/main.ts lines 112 and 140: the
month-bucket name built from a parsed file date. -/
def formatMMYY (d : YMD) : String :=
  pad2 d.month ++ "-" ++ pad2 (d.year % 100)

/-- `moment().format("YYYY-MM-DD")` from src/src/main.ts line 51: the string
form of the run day used for the last-run gate. -/
def formatYYYYMMDD (x : YMD) : String :=
  pad4 x.year ++ "-" ++ pad2 x.month ++ "-" ++ pad2 x.day

/-- Format tokens recognised by the modelled fragment of moment's format
syntax: two-digit day, two-digit month, two- and four-digit year, and
literal characters. -/
inductive FmtTok where
  | DD
  | MM
  | YY
  | YYYY
  | lit (c : Char)
deriving DecidableEq, Repr

/-- Tokenization of a date-format string, longest token first, any other
character taken literally. -/
def tokenize : List Char → List FmtTok
  | 'Y' :: 'Y' :: 'Y' :: 'Y' :: rest => FmtTok.YYYY :: tokenize rest
  | 'Y' :: 'Y' :: rest => FmtTok.YY :: tokenize rest
  | 'M' :: 'M' :: rest => FmtTok.MM :: tokenize rest
  | 'D' :: 'D' :: rest => FmtTok.DD :: tokenize rest
  | c :: rest => FmtTok.lit c :: tokenize rest
  | [] => []

/-- Numeric value of a decimal digit character. -/
def digitVal (c : Char) : Nat := c.toNat - 48

/-- Strict two-digit number: exactly two decimal digits, as moment strict
mode requires for "DD"/"MM"/"YY". -/
def twoDigits : List Char → Option (Nat × List Char)
  | c1 :: c2 :: rest =>
    if c1.isDigit && c2.isDigit then some (digitVal c1 * 10 + digitVal c2, rest)
    else none
  | _ => none

/-- Strict four-digit number, as moment strict mode requires for "YYYY". -/
def fourDigits : List Char → Option (Nat × List Char)
  | c1 :: c2 :: c3 :: c4 :: rest =>
    if c1.isDigit && c2.isDigit && c3.isDigit && c4.isDigit then
      some (((digitVal c1 * 10 + digitVal c2) * 10 + digitVal c3) * 10 + digitVal c4, rest)
    else none
  | _ => none

/-- Moment's two-digit-year window: 00..68 map to 2000..2068, 69..99 map to
1969..1999. -/
def yearOfTwoDigit (n : Nat) : Nat :=
  if n ≤ 68 then 2000 + n else 1900 + n

/-- Fields collected while parsing a filename against the date format. -/
structure ParsedFields where
  day : Option Nat
  month : Option Nat
  year : Option Nat
deriving DecidableEq, Repr

/-- Strict token-by-token matching of a character list against the format
token list; the whole input must be consumed (moment strict mode rejects
partial and extra-character matches). -/
def runTokens : List FmtTok → List Char → ParsedFields → Option ParsedFields
  | [], [], acc => some acc
  | [], _ :: _, _ => none
  | FmtTok.DD :: ts, cs, acc =>
    match twoDigits cs with
    | some (n, rest) => runTokens ts rest { acc with day := some n }
    | none => none
  | FmtTok.MM :: ts, cs, acc =>
    match twoDigits cs with
    | some (n, rest) => runTokens ts rest { acc with month := some n }
    | none => none
  | FmtTok.YY :: ts, cs, acc =>
    match twoDigits cs with
    | some (n, rest) => runTokens ts rest { acc with year := some (yearOfTwoDigit n) }
    | none => none
  | FmtTok.YYYY :: ts, cs, acc =>
    match fourDigits cs with
    | some (n, rest) => runTokens ts rest { acc with year := some n }
    | none => none
  | FmtTok.lit c :: ts, cs, acc =>
    match cs with
    | c1 :: rest => if c1 = c then runTokens ts rest acc else none
    | [] => none

/-- Moment's defaulting of units missing from the format: units above the
most significant parsed unit come from today, units below default to their
minimum. -/
def applyDefaults (today : YMD) (p : ParsedFields) : YMD :=
  match p.year, p.month, p.day with
  | some y, m, d => ⟨y, m.getD 1, d.getD 1⟩
  | none, some m, d => ⟨today.year, m, d.getD 1⟩
  | none, none, some d => ⟨today.year, today.month, d⟩
  | none, none, none => today

/-- `moment(basename, dateFormat, true)` (src/src/main.ts lines 104-108 and
132-136): strict parse of a file's base name against the configured format,
`none` when the parse fails or the date is invalid. -/
def parseMoment (today : YMD) (dateFormat : String) (s : String) : Option YMD :=
  match runTokens (tokenize dateFormat.toList) s.toList ⟨none, none, none⟩ with
  | none => none
  | some p =>
    let d := applyDefaults today p
    if validYMD d then some d else none

/-- Vault paths, modelled as their slash-separated segments. -/
abbrev VPath := List String

/-- Name of the file at a path: its last segment (`TFile.name`). -/
def nameOf (p : VPath) : String := p.getLastD ""

/-- Parent path of a vault entry (`TAbstractFile.parent.path`). -/
def parentOf (p : VPath) : VPath := p.dropLast

/-- `name.endsWith(suffix)` on the underlying characters. -/
def strEndsWith (s suff : String) : Bool :=
  suff.toList.isSuffixOf s.toList

/-- `TFile.basename`: the file name with the extension (text after the last
dot) stripped; a name without a dot is its own basename. -/
def basenameStr (name : String) : String :=
  let rcs := name.toList.reverse.dropWhile (fun c => ¬ c = '.')
  match rcs with
  | [] => name
  | _ :: rest => ⟨rest.reverse⟩

/-- The vault's tree of entries, as the sets of folder paths and file paths;
an entry's children are the entries whose parent path equals its path. -/
structure Vault where
  folders : List VPath
  files : List VPath
deriving DecidableEq, Repr

/-- Host filesystem operations available to the plugin (folder creation,
file deletion, file rename/move).  A run's mutations are traced as a list of
these; the plugin's source never invokes the deletion operation. -/
inductive FsOp where
  | createFolder (path : VPath)
  | deleteFile (path : VPath)
  | renameFile (src : VPath) (dst : VPath)
deriving DecidableEq, Repr

/-- Host `renameFile` effect on the vault tree: the file at `src` now lives
at `dst`.  (Whether the rename is permitted is checked by the caller.) -/
def renameInVault (v : Vault) (src dst : VPath) : Vault :=
  { v with files := v.files.map (fun p => if p = src then dst else p) }

/-- The plugin's persisted settings record (interface ArchiverSettings,
src/src/main.ts lines 12-18).  The folder path is held in segment form. -/
structure ArchiverSettings where
  dailyNotesFolder : VPath
  dateFormat : String
  minAgeDays : Int
  autoRunOnStartup : Bool
  lastRunDate : Option String
deriving DecidableEq, Repr

/-- DEFAULT_SETTINGS from src/src/main.ts lines 20-26. -/
def DEFAULT_SETTINGS : ArchiverSettings :=
  ⟨["Agenda"], "DD-MM-YY", 1, true, none⟩

/-- A persisted data record as `loadData()` returns it: any subset of the
settings fields may be present. -/
structure StoredSettings where
  dailyNotesFolder : Option VPath
  dateFormat : Option String
  minAgeDays : Option Int
  autoRunOnStartup : Option Bool
  lastRunDate : Option (Option String)
deriving DecidableEq, Repr

/-- The record `saveData` persists: every field of the current settings. -/
def storedOf (s : ArchiverSettings) : StoredSettings :=
  ⟨some s.dailyNotesFolder, some s.dateFormat, some s.minAgeDays,
   some s.autoRunOnStartup, some s.lastRunDate⟩

/-- `loadSettings` (src/src/main.ts lines 160-166):
`Object.assign({}, DEFAULT_SETTINGS, await loadData())` — defaults for a
missing record, per-field override by the fields present in the record. -/
def loadSettings (data : Option StoredSettings) : ArchiverSettings :=
  match data with
  | none => DEFAULT_SETTINGS
  | some d =>
    ⟨d.dailyNotesFolder.getD DEFAULT_SETTINGS.dailyNotesFolder,
     d.dateFormat.getD DEFAULT_SETTINGS.dateFormat,
     d.minAgeDays.getD DEFAULT_SETTINGS.minAgeDays,
     d.autoRunOnStartup.getD DEFAULT_SETTINGS.autoRunOnStartup,
     d.lastRunDate.getD DEFAULT_SETTINGS.lastRunDate⟩

/-- Leading decimal digits of a character list, `none` when there is no
leading digit (`parseInt` yields NaN then); trailing characters are
ignored as `parseInt` does. -/
def digitsVal (cs : List Char) : Option Nat :=
  let ds := cs.takeWhile Char.isDigit
  if ds.isEmpty then none
  else some (ds.foldl (fun a c => a * 10 + digitVal c) 0)

/-- JavaScript `parseInt(value)` for decimal input: skip leading whitespace,
optional sign, then the leading digit run; `none` models NaN. -/
def parseIntJS (s : String) : Option Int :=
  match s.toList.dropWhile Char.isWhitespace with
  | '-' :: rest => (digitsVal rest).map (fun n => -(n : Int))
  | '+' :: rest => (digitsVal rest).map (fun n => (n : Int))
  | rest => (digitsVal rest).map (fun n => (n : Int))

/-- The threshold moment of src/src/main.ts line 90:
`moment().startOf("day").subtract(minAgeDays - 1, "days")`, as a day
number. -/
def computeThreshold (today : YMD) (minAgeDays : Int) : Int :=
  toRataDie today - (minAgeDays - 1)

/-- Outcome of the per-file decision repeated at src/src/main.ts lines
101-113 and 129-141: skip the file, or archive it into a month bucket. -/
inductive Classify where
  | skip
  | archive (monthYear : String)
deriving DecidableEq, Repr

/-- The per-file decision of `archiveNotes`: only ".md" names are
considered; the base name is strict-parsed against the date format; a parse
failure is a skip; a parsed date qualifies exactly when strictly before the
threshold (`parsed.isBefore(thresholdDate)`). -/
def classify (today : YMD) (dateFormat : String) (threshold : Int) (name : String) : Classify :=
  if strEndsWith name ".md" = true then
    match parseMoment today dateFormat (basenameStr name) with
    | none => Classify.skip
    | some d =>
      if toRataDie d < threshold then Classify.archive (formatMMYY d)
      else Classify.skip
  else Classify.skip

/-- The first loop of `archiveNotes` (lines 101-114): collect the distinct
month-bucket names of the qualifying files, in first-appearance order (the
JS `Set` keeps insertion order). -/
def monthFoldersAux (today : YMD) (dateFormat : String) (threshold : Int) :
    List VPath → List String → List String
  | [], acc => acc
  | f :: rest, acc =>
    match classify today dateFormat threshold (nameOf f) with
    | Classify.skip => monthFoldersAux today dateFormat threshold rest acc
    | Classify.archive my =>
      monthFoldersAux today dateFormat threshold rest
        (if my ∈ acc then acc else acc ++ [my])

/-- The folder-creation loop of `archiveNotes` (lines 119-125): for each
needed month bucket, create the folder only when no vault entry exists at
its path (`if (!getAbstractFileByPath(path)) createFolder(path)`). -/
def createLoop (base : VPath) : List String → Vault → List FsOp → Vault × List FsOp
  | [], v, ops => (v, ops)
  | my :: rest, v, ops =>
    let p := base ++ [my]
    if p ∈ v.folders ∨ p ∈ v.files then createLoop base rest v ops
    else createLoop base rest { v with folders := v.folders ++ [p] } (ops ++ [FsOp.createFolder p])

/-- Result of an archive run: the moved-file count, or the error that
aborted the run. -/
inductive ArchRes where
  | ok (count : Nat)
  | error (msg : String)
deriving DecidableEq, Repr

/-- Final state of an archive run: its result, the vault after the run, and
the trace of filesystem operations it performed. -/
structure ArchOut where
  res : ArchRes
  vault : Vault
  ops : List FsOp
deriving DecidableEq, Repr

/-- The move loop of `archiveNotes` (lines 127-147): re-classify each file
of the initial top-level snapshot; for a qualifying file call the host
rename to `folder/monthYear/name` and count it.  The host rename fails when
an entry already exists at the destination (the plugin neither checks for
nor deletes such an entry), and the failure propagates, aborting the loop. -/
def moveLoop (s : ArchiverSettings) (today : YMD) (threshold : Int) :
    List VPath → Vault → Nat → List FsOp → ArchOut
  | [], v, count, ops => ⟨ArchRes.ok count, v, ops⟩
  | f :: rest, v, count, ops =>
    match classify today s.dateFormat threshold (nameOf f) with
    | Classify.skip => moveLoop s today threshold rest v count ops
    | Classify.archive my =>
      let newPath := s.dailyNotesFolder ++ [my, nameOf f]
      if newPath ∈ v.files ∨ newPath ∈ v.folders then
        ⟨ArchRes.error "Destination file already exists.", v, ops⟩
      else
        moveLoop s today threshold rest (renameInVault v f newPath) (count + 1)
          (ops ++ [FsOp.renameFile f newPath])

/-- `archiveNotes` (src/src/main.ts lines 75-158): resolve the configured
folder (report zero moved when it is not a folder); compute the threshold;
snapshot the folder's direct file children; collect and lazily create the
needed month buckets; then move each qualifying file.  The `showNotice`
argument only controls transient toasts and is not modelled. -/
def archiveNotes (s : ArchiverSettings) (today : YMD) (v : Vault) : ArchOut :=
  if s.dailyNotesFolder ∈ v.folders then
    let threshold := computeThreshold today s.minAgeDays
    let files := v.files.filter (fun f => parentOf f = s.dailyNotesFolder)
    let months := monthFoldersAux today s.dateFormat threshold files []
    let cl := createLoop s.dailyNotesFolder months v []
    moveLoop s today threshold files cl.1 0 cl.2
  else ⟨ArchRes.ok 0, v, []⟩

/-- Outcome of the automatic-run gate: the settings afterwards, whether they
were persisted, the vault afterwards, and the run's operation trace. -/
structure RunOut where
  settings : ArchiverSettings
  saved : Bool
  vault : Vault
  ops : List FsOp
deriving DecidableEq, Repr

/-- `runIfNeeded` (src/src/main.ts lines 50-73): skip entirely when the
persisted last-run date equals today; otherwise run `archiveNotes` inside
try/catch — on success set `lastRunDate` to today and save, on error leave
the settings untouched. -/
def runIfNeeded (today : YMD) (s : ArchiverSettings) (v : Vault) : RunOut :=
  let todayStr := formatYYYYMMDD today
  if s.lastRunDate = some todayStr then ⟨s, false, v, []⟩
  else
    let out := archiveNotes s today v
    match out.res with
    | ArchRes.ok _ => ⟨{ s with lastRunDate := some todayStr }, true, out.vault, out.ops⟩
    | ArchRes.error _ => ⟨s, false, out.vault, out.ops⟩

/-- Plugin state relevant to the settings invariant: the in-memory settings
and the persisted record last written by `saveData` (none before the first
save). -/
structure PluginState where
  settings : ArchiverSettings
  stored : Option StoredSettings
deriving DecidableEq, Repr

/-- The operations that produce or mutate settings: `loadSettings`, the four
settings-tab `onChange` handlers (src/src/main.ts lines 185-239), and the
automatic run.  The folder edit receives the trimmed path value; the
minimum-age edit applies `parseInt` and only accepts values ≥ 1; the other
edits always persist. -/
inductive SettingsEvent where
  | load
  | editFolder (value : VPath)
  | editFormat (value : String)
  | editMinAge (value : String)
  | editAutoRun (value : Bool)
  | autoRun (today : YMD) (vault : Vault)

/-- One settings-mutating operation, as performed by the plugin. -/
def stepEvent (st : PluginState) (e : SettingsEvent) : PluginState :=
  match e with
  | SettingsEvent.load => { st with settings := loadSettings st.stored }
  | SettingsEvent.editFolder value =>
    let s := { st.settings with dailyNotesFolder := value }
    ⟨s, some (storedOf s)⟩
  | SettingsEvent.editFormat value =>
    let s := { st.settings with dateFormat := value.trim }
    ⟨s, some (storedOf s)⟩
  | SettingsEvent.editMinAge value =>
    match parseIntJS value with
    | some num =>
      if 1 ≤ num then
        let s := { st.settings with minAgeDays := num }
        ⟨s, some (storedOf s)⟩
      else st
    | none => st
  | SettingsEvent.editAutoRun value =>
    let s := { st.settings with autoRunOnStartup := value }
    ⟨s, some (storedOf s)⟩
  | SettingsEvent.autoRun today vault =>
    let out := runIfNeeded today st.settings vault
    ⟨out.settings, if out.saved then some (storedOf out.settings) else st.stored⟩

/-- Fresh-install state: no persisted record, settings as `loadSettings`
yields them during `onload`. -/
def initialState : PluginState := ⟨loadSettings none, none⟩

/-- The spec's settings invariant: the minimum age is ≥ 1, in memory and in
every persisted copy of the field. -/
def minAgeInv (st : PluginState) : Prop :=
  1 ≤ st.settings.minAgeDays ∧
  ∀ d, st.stored = some d → ∀ m, d.minAgeDays = some m → 1 ≤ m

/-- Trace predicate: the operation is a file deletion. -/
def isDeleteOp : FsOp → Bool
  | FsOp.deleteFile _ => true
  | _ => false

/-- Trace predicate: the operation is a rename moving the given path. -/
def isRenameFrom (f : VPath) : FsOp → Bool
  | FsOp.renameFile src _ => decide (src = f)
  | _ => false

/-- The parent of a freshly built destination path `base/my/name` is the
month bucket `base/my`. -/
theorem parentOf_bucket (base : VPath) (a b : String) :
    parentOf (base ++ [a, b]) = base ++ [a] := by
  have h : base ++ [a, b] = (base ++ [a]) ++ [b] := by simp
  rw [h, parentOf, List.dropLast_concat]

/-- A month bucket's path differs from its base folder's path. -/
theorem bucket_ne_base (base : VPath) (a : String) : base ++ [a] ≠ base := by
  intro h
  have := congrArg List.length h
  simp at this

/-- If every file of the snapshot is classified skip, the move loop moves
nothing and leaves the vault and trace unchanged. -/
theorem moveLoop_all_skip (s : ArchiverSettings) (today : YMD) (thr : Int) :
    ∀ (fs : List VPath) (v : Vault) (c : Nat) (ops : List FsOp),
      (∀ f ∈ fs, classify today s.dateFormat thr (nameOf f) = Classify.skip) →
      moveLoop s today thr fs v c ops = ⟨ArchRes.ok c, v, ops⟩ := by
  intro fs
  induction fs with
  | nil => intro v c ops _; rfl
  | cons f rest ih =>
    intro v c ops h
    have hf := h f (by simp)
    simp only [moveLoop, hf]
    exact ih v c ops (fun g hg => h g (by simp [hg]))

/-- If every file of the snapshot is classified skip, no month bucket is
collected. -/
theorem monthFoldersAux_all_skip (today : YMD) (fmt : String) (thr : Int) :
    ∀ (fs : List VPath) (acc : List String),
      (∀ f ∈ fs, classify today fmt thr (nameOf f) = Classify.skip) →
      monthFoldersAux today fmt thr fs acc = acc := by
  intro fs
  induction fs with
  | nil => intro acc _; rfl
  | cons f rest ih =>
    intro acc h
    have hf := h f (by simp)
    simp only [monthFoldersAux, hf]
    exact ih acc (fun g hg => h g (by simp [hg]))

/-- The folder-creation loop does not change the vault's files. -/
theorem createLoop_files (base : VPath) :
    ∀ (ms : List String) (v : Vault) (ops : List FsOp),
      (createLoop base ms v ops).1.files = v.files := by
  intro ms
  induction ms with
  | nil => intro v ops; rfl
  | cons my rest ih =>
    intro v ops
    simp only [createLoop]
    split
    · exact ih v ops
    · exact ih _ _

/-- The folder-creation loop only adds folders. -/
theorem createLoop_folders_mono (base : VPath) :
    ∀ (ms : List String) (v : Vault) (ops : List FsOp) (q : VPath),
      q ∈ v.folders → q ∈ (createLoop base ms v ops).1.folders := by
  intro ms
  induction ms with
  | nil => intro v ops q hq; exact hq
  | cons my rest ih =>
    intro v ops q hq
    simp only [createLoop]
    split
    · exact ih v ops q hq
    · exact ih _ _ q (by simp [hq])

/-- The move loop never changes the vault's folders. -/
theorem moveLoop_folders (s : ArchiverSettings) (today : YMD) (thr : Int) :
    ∀ (fs : List VPath) (v : Vault) (c : Nat) (ops : List FsOp),
      (moveLoop s today thr fs v c ops).vault.folders = v.folders := by
  intro fs
  induction fs with
  | nil => intro v c ops; rfl
  | cons f rest ih =>
    intro v c ops
    cases hc : classify today s.dateFormat thr (nameOf f) with
    | skip => simp only [moveLoop, hc]; exact ih v c ops
    | archive my =>
      simp only [moveLoop, hc]
      split
      · rfl
      · exact (ih _ _ _).trans rfl

/-- Operations appended by the folder-creation loop are all folder
creations: any trace predicate false on folder creations is unaffected. -/
theorem createLoop_ops_filter (base : VPath) (pr : FsOp → Bool)
    (hpr : ∀ q, pr (FsOp.createFolder q) = false) :
    ∀ (ms : List String) (v : Vault) (ops : List FsOp),
      ((createLoop base ms v ops).2.filter pr) = ops.filter pr := by
  intro ms
  induction ms with
  | nil => intro v ops; rfl
  | cons my rest ih =>
    intro v ops
    simp only [createLoop]
    split
    · exact ih v ops
    · rw [ih]
      simp [List.filter_append, hpr]

/-- Operations appended by the move loop are all renames: any trace
predicate false on renames is unaffected. -/
theorem moveLoop_ops_filter (s : ArchiverSettings) (today : YMD) (thr : Int)
    (pr : FsOp → Bool) (hpr : ∀ a b, pr (FsOp.renameFile a b) = false) :
    ∀ (fs : List VPath) (v : Vault) (c : Nat) (ops : List FsOp),
      ((moveLoop s today thr fs v c ops).ops.filter pr) = ops.filter pr := by
  intro fs
  induction fs with
  | nil => intro v c ops; rfl
  | cons f rest ih =>
    intro v c ops
    cases hc : classify today s.dateFormat thr (nameOf f) with
    | skip => simp only [moveLoop, hc]; exact ih v c ops
    | archive my =>
      simp only [moveLoop, hc]
      split
      · rfl
      · rw [ih]
        simp [List.filter_append, hpr]

/-- Inversion of a qualifying classification: the name is a ".md" name whose
base name strict-parses to a date strictly before the threshold, and the
bucket name is that date's "MM-YY" rendering. -/
theorem classify_eq_archive {today : YMD} {fmt : String} {thr : Int} {name my : String}
    (h : classify today fmt thr name = Classify.archive my) :
    ∃ d, parseMoment today fmt (basenameStr name) = some d ∧
      toRataDie d < thr ∧ my = formatMMYY d ∧ strEndsWith name ".md" = true := by
  by_cases hmd : strEndsWith name ".md" = true
  · rw [classify, if_pos hmd] at h
    cases hp : parseMoment today fmt (basenameStr name) with
    | none =>
      rw [hp] at h
      replace h : Classify.skip = Classify.archive my := h
      exact absurd h (by simp)
    | some d =>
      rw [hp] at h
      replace h : (if toRataDie d < thr then Classify.archive (formatMMYY d)
          else Classify.skip) = Classify.archive my := h
      by_cases hlt : toRataDie d < thr
      · rw [if_pos hlt] at h
        exact ⟨d, rfl, hlt, by cases h; rfl, hmd⟩
      · rw [if_neg hlt] at h
        exact absurd h (by simp)
  · rw [classify, if_neg hmd] at h
    exact absurd h (by simp)

/-- A file classified skip is untouched by the move loop: it stays at its
path and no rename with it as source is added to the trace. -/
theorem moveLoop_skip_preserved (s : ArchiverSettings) (today : YMD) (thr : Int)
    (f : VPath) (hskip : classify today s.dateFormat thr (nameOf f) = Classify.skip) :
    ∀ (fs : List VPath) (v : Vault) (c : Nat) (ops : List FsOp),
      f ∈ v.files →
      f ∈ (moveLoop s today thr fs v c ops).vault.files ∧
      ((moveLoop s today thr fs v c ops).ops.filter (isRenameFrom f)) =
        ops.filter (isRenameFrom f) := by
  intro fs
  induction fs with
  | nil => intro v c ops hf; exact ⟨hf, rfl⟩
  | cons g rest ih =>
    intro v c ops hf
    cases hc : classify today s.dateFormat thr (nameOf g) with
    | skip => simp only [moveLoop, hc]; exact ih v c ops hf
    | archive my =>
      simp only [moveLoop, hc]
      split
      · exact ⟨hf, rfl⟩
      · have hne : ¬ (f = g) := by
          intro h
          rw [h, hc] at hskip
          exact absurd hskip (by simp)
        have hgf : ¬ (g = f) := fun h => hne h.symm
        have hf' : f ∈ (renameInVault v g (s.dailyNotesFolder ++ [my, nameOf g])).files := by
          simp only [renameInVault]
          exact List.mem_map.2 ⟨f, hf, by rw [if_neg hne]⟩
        have hrec := ih _ (c + 1)
          (ops ++ [FsOp.renameFile g (s.dailyNotesFolder ++ [my, nameOf g])]) hf'
        refine ⟨hrec.1, ?_⟩
        rw [hrec.2]
        simp [List.filter_append, isRenameFrom, hgf]

/-- After a successful move loop, any file that still sits directly in the
source folder was a file of the starting vault and, if it was part of the
processed snapshot, was classified skip (qualifying snapshot files are all
moved into buckets, whose parents differ from the source folder). -/
theorem moveLoop_ok_parent_skip (s : ArchiverSettings) (today : YMD) (thr : Int) :
    ∀ (fs : List VPath) (v : Vault) (c : Nat) (ops : List FsOp) (m : Nat)
      (v2 : Vault) (ops2 : List FsOp),
      moveLoop s today thr fs v c ops = ⟨ArchRes.ok m, v2, ops2⟩ →
      ∀ p, p ∈ v2.files → parentOf p = s.dailyNotesFolder →
        p ∈ v.files ∧
        (p ∈ fs → classify today s.dateFormat thr (nameOf p) = Classify.skip) := by
  intro fs
  induction fs with
  | nil =>
    intro v c ops m v2 ops2 h p hp hpar
    simp only [moveLoop, ArchOut.mk.injEq] at h
    obtain ⟨-, h2, -⟩ := h
    subst h2
    exact ⟨hp, by simp⟩
  | cons g rest ih =>
    intro v c ops m v2 ops2 h p hp hpar
    cases hc : classify today s.dateFormat thr (nameOf g) with
    | skip =>
      simp only [moveLoop, hc] at h
      obtain ⟨h1, h2⟩ := ih v c ops m v2 ops2 h p hp hpar
      refine ⟨h1, fun hmem => ?_⟩
      rcases List.mem_cons.1 hmem with hpg | hpr
      · rw [hpg, hc]
      · exact h2 hpr
    | archive my =>
      simp only [moveLoop, hc] at h
      split at h
      · simp only [ArchOut.mk.injEq] at h
        exact absurd h.1 (by simp)
      · obtain ⟨h1, h2⟩ := ih _ _ _ m v2 ops2 h p hp hpar
        simp only [renameInVault] at h1
        obtain ⟨q, hq, hq2⟩ := List.mem_map.1 h1
        by_cases hqg : q = g
        · rw [if_pos hqg] at hq2
          rw [← hq2, parentOf_bucket] at hpar
          exact absurd hpar (bucket_ne_base _ _)
        · rw [if_neg hqg] at hq2
          subst hq2
          refine ⟨hq, fun hmem => ?_⟩
          rcases List.mem_cons.1 hmem with hpg | hpr
          · exact absurd hpg hqg
          · exact h2 hpr

/-- Every rename the move loop adds to the trace moves a file whose base
name parsed to some date `d` into `folder/MM-YY(d)/name`. -/
theorem moveLoop_rename_shape (s : ArchiverSettings) (today : YMD) (thr : Int) :
    ∀ (fs : List VPath) (v : Vault) (c : Nat) (ops : List FsOp) (src dst : VPath),
      FsOp.renameFile src dst ∈ (moveLoop s today thr fs v c ops).ops →
      FsOp.renameFile src dst ∈ ops ∨
        ∃ d, parseMoment today s.dateFormat (basenameStr (nameOf src)) = some d ∧
          dst = s.dailyNotesFolder ++ [formatMMYY d, nameOf src] := by
  intro fs
  induction fs with
  | nil => intro v c ops src dst h; exact Or.inl h
  | cons g rest ih =>
    intro v c ops src dst h
    cases hc : classify today s.dateFormat thr (nameOf g) with
    | skip =>
      simp only [moveLoop, hc] at h
      exact ih v c ops src dst h
    | archive my =>
      simp only [moveLoop, hc] at h
      split at h
      · exact Or.inl h
      · rcases ih _ _ _ src dst h with hmem | hsh
        · rcases List.mem_append.1 hmem with hmem' | hnew
          · exact Or.inl hmem'
          · simp only [List.mem_singleton, FsOp.renameFile.injEq] at hnew
            obtain ⟨hsrc, hdst⟩ := hnew
            obtain ⟨d, hp, -, hmy, -⟩ := classify_eq_archive hc
            subst hsrc
            exact Or.inr ⟨d, hp, by rw [hdst, hmy]⟩
        · exact Or.inr hsh

/-- The folder-creation loop adds no renames to the trace. -/
theorem createLoop_rename_mem (base : VPath) :
    ∀ (ms : List String) (v : Vault) (ops : List FsOp) (src dst : VPath),
      FsOp.renameFile src dst ∈ (createLoop base ms v ops).2 →
      FsOp.renameFile src dst ∈ ops := by
  intro ms
  induction ms with
  | nil => intro v ops src dst h; exact h
  | cons my rest ih =>
    intro v ops src dst h
    simp only [createLoop] at h
    split at h
    · exact ih v ops src dst h
    · rcases List.mem_append.1 (ih _ _ src dst h) with hmem | hnew
      · exact hmem
      · simp at hnew

/-- The move loop adds no folder creations to the trace. -/
theorem moveLoop_create_mem (s : ArchiverSettings) (today : YMD) (thr : Int) :
    ∀ (fs : List VPath) (v : Vault) (c : Nat) (ops : List FsOp) (p : VPath),
      FsOp.createFolder p ∈ (moveLoop s today thr fs v c ops).ops →
      FsOp.createFolder p ∈ ops := by
  intro fs
  induction fs with
  | nil => intro v c ops p h; exact h
  | cons g rest ih =>
    intro v c ops p h
    cases hc : classify today s.dateFormat thr (nameOf g) with
    | skip =>
      simp only [moveLoop, hc] at h
      exact ih v c ops p h
    | archive my =>
      simp only [moveLoop, hc] at h
      split at h
      · exact h
      · rcases List.mem_append.1 (ih _ _ _ p h) with hmem | hnew
        · exact hmem
        · simp at hnew

/-- Lazy creation: a folder creation the creation loop adds to the trace is
for a path that was absent from the starting vault's folders. -/
theorem createLoop_create_not_mem (base : VPath) :
    ∀ (ms : List String) (v : Vault) (ops : List FsOp) (p : VPath),
      FsOp.createFolder p ∈ (createLoop base ms v ops).2 →
      FsOp.createFolder p ∈ ops ∨ p ∉ v.folders := by
  intro ms
  induction ms with
  | nil => intro v ops p h; exact Or.inl h
  | cons my rest ih =>
    intro v ops p h
    simp only [createLoop] at h
    split at h
    · exact ih v ops p h
    · rename_i hguard
      rcases ih _ _ p h with hmem | habs
      · rcases List.mem_append.1 hmem with hmem' | hnew
        · exact Or.inl hmem'
        · simp only [List.mem_singleton, FsOp.createFolder.injEq] at hnew
          subst hnew
          exact Or.inr (fun hin => hguard (Or.inl hin))
      · exact Or.inr (fun hin => habs (by simp [hin]))

/-- Unfolding of `archiveNotes` when the configured folder exists. -/
theorem archiveNotes_pos (s : ArchiverSettings) (today : YMD) (v : Vault)
    (hb : s.dailyNotesFolder ∈ v.folders) :
    archiveNotes s today v =
      moveLoop s today (computeThreshold today s.minAgeDays)
        (v.files.filter (fun g => parentOf g = s.dailyNotesFolder))
        (createLoop s.dailyNotesFolder
          (monthFoldersAux today s.dateFormat (computeThreshold today s.minAgeDays)
            (v.files.filter (fun g => parentOf g = s.dailyNotesFolder)) []) v []).1
        0
        (createLoop s.dailyNotesFolder
          (monthFoldersAux today s.dateFormat (computeThreshold today s.minAgeDays)
            (v.files.filter (fun g => parentOf g = s.dailyNotesFolder)) []) v []).2 := by
  simp only [archiveNotes, hb, if_true]

/-- A file classified skip is untouched by a whole archive run: it is still
among the vault's files afterwards and the trace holds no rename moving it. -/
theorem archive_skip_untouched (s : ArchiverSettings) (today : YMD) (v : Vault) (f : VPath)
    (hskip : classify today s.dateFormat (computeThreshold today s.minAgeDays) (nameOf f)
      = Classify.skip)
    (hf : f ∈ v.files) :
    f ∈ (archiveNotes s today v).vault.files ∧
    ((archiveNotes s today v).ops.filter (isRenameFrom f)) = [] := by
  by_cases hb : s.dailyNotesFolder ∈ v.folders
  · rw [archiveNotes_pos s today v hb]
    have hmem : f ∈ (createLoop s.dailyNotesFolder
        (monthFoldersAux today s.dateFormat (computeThreshold today s.minAgeDays)
          (v.files.filter (fun g => parentOf g = s.dailyNotesFolder)) []) v []).1.files := by
      rw [createLoop_files]
      exact hf
    have h1 := moveLoop_skip_preserved s today (computeThreshold today s.minAgeDays) f hskip
      (v.files.filter (fun g => parentOf g = s.dailyNotesFolder)) _ 0
      (createLoop s.dailyNotesFolder
        (monthFoldersAux today s.dateFormat (computeThreshold today s.minAgeDays)
          (v.files.filter (fun g => parentOf g = s.dailyNotesFolder)) []) v []).2 hmem
    refine ⟨h1.1, ?_⟩
    rw [h1.2, createLoop_ops_filter _ _ (fun q => rfl)]
    rfl
  · rw [archiveNotes, if_neg hb]
    exact ⟨hf, rfl⟩

/-- Saving settings whose minimum age is ≥ 1 yields a state satisfying the
minimum-age invariant. -/
theorem minAgeInv_save (s' : ArchiverSettings) (h : 1 ≤ s'.minAgeDays) :
    minAgeInv ⟨s', some (storedOf s')⟩ := by
  refine ⟨h, ?_⟩
  intro d hd m hm
  injection hd with hd
  subst hd
  simp only [storedOf] at hm
  injection hm with hm
  subst hm
  exact h

/-- `runIfNeeded` never changes the minimum-age setting. -/
theorem runIfNeeded_minAge (today : YMD) (s : ArchiverSettings) (v : Vault) :
    (runIfNeeded today s v).settings.minAgeDays = s.minAgeDays := by
  simp only [runIfNeeded]
  split
  · rfl
  · split <;> rfl

/-- Every settings-mutating operation preserves the minimum-age invariant. -/
theorem stepEvent_preserves_minAgeInv (st : PluginState) (e : SettingsEvent)
    (h : minAgeInv st) : minAgeInv (stepEvent st e) := by
  obtain ⟨h1, h2⟩ := h
  cases e with
  | load =>
    refine ⟨?_, h2⟩
    cases hst : st.stored with
    | none => simp [stepEvent, loadSettings, hst, DEFAULT_SETTINGS]
    | some d =>
      simp only [stepEvent, loadSettings, hst]
      cases hm : d.minAgeDays with
      | none => simp [hm, DEFAULT_SETTINGS]
      | some m => simpa [hm] using h2 d hst m hm
  | editFolder value => exact minAgeInv_save _ h1
  | editFormat value => exact minAgeInv_save _ h1
  | editMinAge value =>
    cases hp : parseIntJS value with
    | none => simpa [stepEvent, hp] using And.intro h1 h2
    | some num =>
      by_cases hn : 1 ≤ num
      · simp only [stepEvent, hp, if_pos hn]
        exact minAgeInv_save _ hn
      · simpa [stepEvent, hp, if_neg hn] using And.intro h1 h2
  | editAutoRun value => exact minAgeInv_save _ h1
  | autoRun today vault =>
    simp only [stepEvent]
    by_cases hs : (runIfNeeded today st.settings vault).saved = true
    · rw [if_pos hs]
      exact minAgeInv_save _ (by rw [runIfNeeded_minAge]; exact h1)
    · rw [if_neg hs]
      refine ⟨by rw [runIfNeeded_minAge]; exact h1, h2⟩

/-- Claim C2: for every run date and minAgeDays ≥ 1, the threshold equals
start-of-day(today) minus (minAgeDays − 1) days, and a candidate qualifies
iff its parsed date is strictly before the threshold: a file dated exactly
at the threshold does not qualify, one dated a day earlier does, and with
minAgeDays = 1 a file dated today does not qualify. -/
theorem C2_threshold_strict_qualification (today : YMD) (minAge : Int)
    (fmt name : String) (d : YMD)
    (hmin : 1 ≤ minAge)
    (hmd : strEndsWith name ".md" = true)
    (hparse : parseMoment today fmt (basenameStr name) = some d) :
    computeThreshold today minAge = toRataDie today - (minAge - 1) ∧
    (classify today fmt (computeThreshold today minAge) name =
        Classify.archive (formatMMYY d) ↔
      toRataDie d < computeThreshold today minAge) ∧
    (toRataDie d = computeThreshold today minAge →
      classify today fmt (computeThreshold today minAge) name = Classify.skip) ∧
    (toRataDie d = computeThreshold today minAge - 1 →
      classify today fmt (computeThreshold today minAge) name =
        Classify.archive (formatMMYY d)) ∧
    (minAge = 1 → toRataDie d = toRataDie today →
      classify today fmt (computeThreshold today minAge) name = Classify.skip) := by
  have hcl : classify today fmt (computeThreshold today minAge) name =
      if toRataDie d < computeThreshold today minAge then Classify.archive (formatMMYY d)
      else Classify.skip := by
    rw [classify, if_pos hmd, hparse]
  refine ⟨rfl, ?_, ?_, ?_, ?_⟩
  · rw [hcl]
    split_ifs with hlt
    · simp [hlt]
    · simp [hlt]
  · intro heq
    rw [hcl, if_neg (by omega)]
  · intro heq
    rw [hcl, if_pos (by omega)]
  · intro h1 heq
    subst h1
    rw [hcl, if_neg ?_]
    simp only [computeThreshold]
    omega

/-- Witness for C2 at a concrete instance: run date 2026-02-10, minAge 1,
format "DD-MM-YY"; the file dated one day before the threshold is
classified for archiving into its month bucket. -/
theorem C2_witness :
    classify ⟨2026, 2, 10⟩ "DD-MM-YY" (computeThreshold ⟨2026, 2, 10⟩ 1) "09-02-26.md" =
      Classify.archive (formatMMYY ⟨2026, 2, 9⟩) :=
  (C2_threshold_strict_qualification ⟨2026, 2, 10⟩ 1 "DD-MM-YY" "09-02-26.md" ⟨2026, 2, 9⟩
    (by decide) (by decide) (by decide)).2.2.2.1 (by decide)

/-- Claim C9: when the configured folder path does not resolve to an
existing folder, the archive operation performs no filesystem mutation,
leaves the vault unchanged, and reports zero moved files. -/
theorem C9_folder_not_found_noop (s : ArchiverSettings) (today : YMD) (v : Vault)
    (h : s.dailyNotesFolder ∉ v.folders) :
    archiveNotes s today v = ⟨ArchRes.ok 0, v, []⟩ := by
  rw [archiveNotes, if_neg h]

/-- Witness for C9: a vault without the configured "Missing" folder. -/
theorem C9_witness :
    archiveNotes ⟨["Missing"], "DD-MM-YY", 1, true, none⟩ ⟨2026, 2, 10⟩
      ⟨[["Agenda"]], [["Agenda", "05-02-26.md"]]⟩ =
      ⟨ArchRes.ok 0, ⟨[["Agenda"]], [["Agenda", "05-02-26.md"]]⟩, []⟩ :=
  C9_folder_not_found_noop ⟨["Missing"], "DD-MM-YY", 1, true, none⟩ ⟨2026, 2, 10⟩
    ⟨[["Agenda"]], [["Agenda", "05-02-26.md"]]⟩ (by decide)

/-- Claim C8: when the persisted last-run date equals today, the automatic
run performs no work at all: settings, vault and trace are untouched and
`archiveNotes` is never entered. -/
theorem C8_same_day_skip (today : YMD) (s : ArchiverSettings) (v : Vault)
    (h : s.lastRunDate = some (formatYYYYMMDD today)) :
    runIfNeeded today s v = ⟨s, false, v, []⟩ := by
  simp only [runIfNeeded]
  rw [if_pos h]

/-- Witness for C8: last run recorded as 2026-02-10 and the run retriggered
that same day, with an otherwise archivable file present. -/
theorem C8_witness :
    runIfNeeded ⟨2026, 2, 10⟩ ⟨["Agenda"], "DD-MM-YY", 1, true, some "2026-02-10"⟩
      ⟨[["Agenda"]], [["Agenda", "05-02-26.md"]]⟩ =
      ⟨⟨["Agenda"], "DD-MM-YY", 1, true, some "2026-02-10"⟩, false,
       ⟨[["Agenda"]], [["Agenda", "05-02-26.md"]]⟩, []⟩ :=
  C8_same_day_skip ⟨2026, 2, 10⟩ ⟨["Agenda"], "DD-MM-YY", 1, true, some "2026-02-10"⟩
    ⟨[["Agenda"]], [["Agenda", "05-02-26.md"]]⟩ (by decide)

/-- Claim C7: a file whose base name does not strictly parse against the
configured date format is classified skip and is untouched by the archive
run — it stays among the vault's files and the trace holds no rename moving
it — regardless of any date-like content of its name. -/
theorem C7_strict_parse_failure_skips (s : ArchiverSettings) (today : YMD) (v : Vault)
    (f : VPath)
    (hparse : parseMoment today s.dateFormat (basenameStr (nameOf f)) = none)
    (hf : f ∈ v.files) :
    classify today s.dateFormat (computeThreshold today s.minAgeDays) (nameOf f)
      = Classify.skip ∧
    f ∈ (archiveNotes s today v).vault.files ∧
    ((archiveNotes s today v).ops.filter (isRenameFrom f)) = [] := by
  have hskip : classify today s.dateFormat (computeThreshold today s.minAgeDays) (nameOf f)
      = Classify.skip := by
    by_cases hmd : strEndsWith (nameOf f) ".md" = true
    · rw [classify, if_pos hmd, hparse]
    · rw [classify, if_neg hmd]
  have h := archive_skip_untouched s today v f hskip hf
  exact ⟨hskip, h.1, h.2⟩

/-- Witness for C7: "2026-02-10.md" does not strictly match "DD-MM-YY"
(wrong token order and extra characters), so the file is skipped and the
run moves nothing. -/
theorem C7_witness :
    classify ⟨2026, 2, 10⟩ (⟨["Agenda"], "DD-MM-YY", 1, true, none⟩ : ArchiverSettings).dateFormat
      (computeThreshold ⟨2026, 2, 10⟩ 1) (nameOf ["Agenda", "2026-02-10.md"]) = Classify.skip ∧
    (["Agenda", "2026-02-10.md"] : VPath) ∈
      (archiveNotes ⟨["Agenda"], "DD-MM-YY", 1, true, none⟩ ⟨2026, 2, 10⟩
        ⟨[["Agenda"]], [["Agenda", "2026-02-10.md"]]⟩).vault.files ∧
    ((archiveNotes ⟨["Agenda"], "DD-MM-YY", 1, true, none⟩ ⟨2026, 2, 10⟩
        ⟨[["Agenda"]], [["Agenda", "2026-02-10.md"]]⟩).ops.filter
      (isRenameFrom ["Agenda", "2026-02-10.md"])) = [] :=
  C7_strict_parse_failure_skips ⟨["Agenda"], "DD-MM-YY", 1, true, none⟩ ⟨2026, 2, 10⟩
    ⟨[["Agenda"]], [["Agenda", "2026-02-10.md"]]⟩ ["Agenda", "2026-02-10.md"]
    (by decide) (by decide)

/-- Claim C10: a file whose name does not end in ".md" is classified skip
and untouched by the archive run, even when its base name would parse to a
date older than the threshold. -/
theorem C10_non_md_files_skipped (s : ArchiverSettings) (today : YMD) (v : Vault)
    (f : VPath)
    (hmd : strEndsWith (nameOf f) ".md" = false)
    (hf : f ∈ v.files) :
    classify today s.dateFormat (computeThreshold today s.minAgeDays) (nameOf f)
      = Classify.skip ∧
    f ∈ (archiveNotes s today v).vault.files ∧
    ((archiveNotes s today v).ops.filter (isRenameFrom f)) = [] := by
  have hskip : classify today s.dateFormat (computeThreshold today s.minAgeDays) (nameOf f)
      = Classify.skip := by
    rw [classify, if_neg (by simp [hmd])]
  have h := archive_skip_untouched s today v f hskip hf
  exact ⟨hskip, h.1, h.2⟩

/-- Witness for C10: "05-02-26.txt" strict-parses against "DD-MM-YY" to a
date older than the threshold, yet the file is skipped because its
extension is not ".md". -/
theorem C10_witness :
    classify ⟨2026, 2, 10⟩ (⟨["Agenda"], "DD-MM-YY", 1, true, none⟩ : ArchiverSettings).dateFormat
      (computeThreshold ⟨2026, 2, 10⟩ 1) (nameOf ["Agenda", "05-02-26.txt"]) = Classify.skip ∧
    (["Agenda", "05-02-26.txt"] : VPath) ∈
      (archiveNotes ⟨["Agenda"], "DD-MM-YY", 1, true, none⟩ ⟨2026, 2, 10⟩
        ⟨[["Agenda"]], [["Agenda", "05-02-26.txt"]]⟩).vault.files ∧
    ((archiveNotes ⟨["Agenda"], "DD-MM-YY", 1, true, none⟩ ⟨2026, 2, 10⟩
        ⟨[["Agenda"]], [["Agenda", "05-02-26.txt"]]⟩).ops.filter
      (isRenameFrom ["Agenda", "05-02-26.txt"])) = [] :=
  C10_non_md_files_skipped ⟨["Agenda"], "DD-MM-YY", 1, true, none⟩ ⟨2026, 2, 10⟩
    ⟨[["Agenda"]], [["Agenda", "05-02-26.txt"]]⟩ ["Agenda", "05-02-26.txt"]
    (by decide) (by decide)

/-- Claim C4: when the automatic run is due, an error in `archiveNotes`
leaves the settings — in particular the persisted last-run date — entirely
unchanged and nothing is saved, so the next startup retries; the last-run
date is set to today, and saved, exactly when the archive completes without
error. -/
theorem C4_error_keeps_lastrun (today : YMD) (s : ArchiverSettings) (v : Vault)
    (h : ¬ s.lastRunDate = some (formatYYYYMMDD today)) :
    (∀ e, (archiveNotes s today v).res = ArchRes.error e →
      runIfNeeded today s v =
        ⟨s, false, (archiveNotes s today v).vault, (archiveNotes s today v).ops⟩) ∧
    (∀ n, (archiveNotes s today v).res = ArchRes.ok n →
      runIfNeeded today s v =
        ⟨{ s with lastRunDate := some (formatYYYYMMDD today) }, true,
         (archiveNotes s today v).vault, (archiveNotes s today v).ops⟩) := by
  constructor
  · intro e he
    simp only [runIfNeeded, h, if_false, he]
  · intro n hn
    simp only [runIfNeeded, h, if_false, hn]

/-- Witness for C4, error branch: a destination file already exists, the
host rename fails, the run aborts, and the settings (the last-run date
included) are exactly the ones before the run. -/
theorem C4_witness :
    (runIfNeeded ⟨2026, 2, 10⟩ ⟨["Agenda"], "DD-MM-YY", 1, true, none⟩
        ⟨[["Agenda"], ["Agenda", "02-26"]],
         [["Agenda", "05-02-26.md"], ["Agenda", "02-26", "05-02-26.md"]]⟩).settings =
      ⟨["Agenda"], "DD-MM-YY", 1, true, none⟩ :=
  congrArg RunOut.settings
    ((C4_error_keeps_lastrun ⟨2026, 2, 10⟩ ⟨["Agenda"], "DD-MM-YY", 1, true, none⟩
        ⟨[["Agenda"], ["Agenda", "02-26"]],
         [["Agenda", "05-02-26.md"], ["Agenda", "02-26", "05-02-26.md"]]⟩ (by decide)).1
      "Destination file already exists." (by decide))

/-- Claim C1 (refuted): the archive operation never deletes anything — its
trace never contains a file deletion — and on a run where a file already
exists at a qualifying file's destination path the host rename fails and
the run aborts with an error, instead of the claimed delete-then-move
overwrite. -/
theorem C1_no_overwrite_delete :
    (∀ (s : ArchiverSettings) (today : YMD) (v : Vault),
      ((archiveNotes s today v).ops.filter isDeleteOp) = []) ∧
    archiveNotes ⟨["Agenda"], "DD-MM-YY", 1, true, none⟩ ⟨2026, 2, 10⟩
      ⟨[["Agenda"], ["Agenda", "02-26"]],
       [["Agenda", "05-02-26.md"], ["Agenda", "02-26", "05-02-26.md"]]⟩ =
      ⟨ArchRes.error "Destination file already exists.",
       ⟨[["Agenda"], ["Agenda", "02-26"]],
        [["Agenda", "05-02-26.md"], ["Agenda", "02-26", "05-02-26.md"]]⟩, []⟩ ∧
    (["Agenda", "02-26", "05-02-26.md"] : VPath) ∈
      ([["Agenda", "05-02-26.md"], ["Agenda", "02-26", "05-02-26.md"]] : List VPath) := by
  refine ⟨?_, by decide, by decide⟩
  intro s today v
  by_cases hb : s.dailyNotesFolder ∈ v.folders
  · rw [archiveNotes_pos s today v hb,
      moveLoop_ops_filter s today _ isDeleteOp (fun a b => rfl),
      createLoop_ops_filter _ isDeleteOp (fun q => rfl)]
    rfl
  · rw [archiveNotes, if_neg hb]
    rfl

/-- Claim C3: every rename performed by an archive run moves a qualifying
file to `<sourceFolder>/<MM-YY>/<filename>` for the file's parsed date;
every folder creation is for a bucket that did not yet exist (lazy,
idempotent creation); and on the spec's example — folder "Agenda" holding
"05-02-26.md", format "DD-MM-YY", minAgeDays 1, run on 2026-02-10 — the
file ends at "Agenda/02-26/05-02-26.md" with moved count 1. -/
theorem C3_bucket_path_lazy_creation :
    (∀ (s : ArchiverSettings) (today : YMD) (v : Vault) (src dst : VPath),
      FsOp.renameFile src dst ∈ (archiveNotes s today v).ops →
      ∃ d, parseMoment today s.dateFormat (basenameStr (nameOf src)) = some d ∧
        dst = s.dailyNotesFolder ++ [formatMMYY d, nameOf src]) ∧
    (∀ (s : ArchiverSettings) (today : YMD) (v : Vault) (p : VPath),
      FsOp.createFolder p ∈ (archiveNotes s today v).ops → p ∉ v.folders) ∧
    archiveNotes ⟨["Agenda"], "DD-MM-YY", 1, true, none⟩ ⟨2026, 2, 10⟩
      ⟨[["Agenda"]], [["Agenda", "05-02-26.md"]]⟩ =
      ⟨ArchRes.ok 1,
       ⟨[["Agenda"], ["Agenda", "02-26"]], [["Agenda", "02-26", "05-02-26.md"]]⟩,
       [FsOp.createFolder ["Agenda", "02-26"],
        FsOp.renameFile ["Agenda", "05-02-26.md"] ["Agenda", "02-26", "05-02-26.md"]]⟩ := by
  refine ⟨?_, ?_, by decide⟩
  · intro s today v src dst h
    by_cases hb : s.dailyNotesFolder ∈ v.folders
    · rw [archiveNotes_pos s today v hb] at h
      rcases moveLoop_rename_shape s today _ _ _ _ _ src dst h with hmem | hsh
      · exact absurd (createLoop_rename_mem _ _ _ _ src dst hmem) (by simp)
      · exact hsh
    · rw [archiveNotes, if_neg hb] at h
      exact absurd h (by simp)
  · intro s today v p h
    by_cases hb : s.dailyNotesFolder ∈ v.folders
    · rw [archiveNotes_pos s today v hb] at h
      have h1 := moveLoop_create_mem s today _ _ _ _ _ p h
      rcases createLoop_create_not_mem _ _ _ _ p h1 with hmem | habs
      · exact absurd hmem (by simp)
      · exact habs
    · rw [archiveNotes, if_neg hb] at h
      exact absurd h (by simp)

/-- Witness for C3: the single rename of the example run targets
"Agenda/02-26/05-02-26.md", and the created bucket "Agenda/02-26" was
absent from the starting vault. -/
theorem C3_witness :
    (∃ d, parseMoment ⟨2026, 2, 10⟩
        (⟨["Agenda"], "DD-MM-YY", 1, true, none⟩ : ArchiverSettings).dateFormat
        (basenameStr (nameOf ["Agenda", "05-02-26.md"])) = some d ∧
      (["Agenda", "02-26", "05-02-26.md"] : VPath) =
        (⟨["Agenda"], "DD-MM-YY", 1, true, none⟩ : ArchiverSettings).dailyNotesFolder ++
          [formatMMYY d, nameOf ["Agenda", "05-02-26.md"]]) ∧
    (["Agenda", "02-26"] : VPath) ∉
      (⟨[["Agenda"]], [["Agenda", "05-02-26.md"]]⟩ : Vault).folders :=
  ⟨C3_bucket_path_lazy_creation.1 ⟨["Agenda"], "DD-MM-YY", 1, true, none⟩ ⟨2026, 2, 10⟩
      ⟨[["Agenda"]], [["Agenda", "05-02-26.md"]]⟩ ["Agenda", "05-02-26.md"]
      ["Agenda", "02-26", "05-02-26.md"] (by decide),
   C3_bucket_path_lazy_creation.2.1 ⟨["Agenda"], "DD-MM-YY", 1, true, none⟩ ⟨2026, 2, 10⟩
      ⟨[["Agenda"]], [["Agenda", "05-02-26.md"]]⟩ ["Agenda", "02-26"] (by decide)⟩

/-- Claim C6: a second archive run on the folder state a successful run
left behind — same settings, same run date, no files added — moves nothing:
it returns count 0, performs no operation, and leaves the vault as it was,
because every moved file is no longer a direct child of the source folder. -/
theorem C6_second_run_moves_nothing (s : ArchiverSettings) (today : YMD) (v : Vault)
    (n : Nat) (v2 : Vault) (ops : List FsOp)
    (h : archiveNotes s today v = ⟨ArchRes.ok n, v2, ops⟩) :
    archiveNotes s today v2 = ⟨ArchRes.ok 0, v2, []⟩ := by
  by_cases hb : s.dailyNotesFolder ∈ v.folders
  · rw [archiveNotes_pos s today v hb] at h
    have hfiles1 :
        (createLoop s.dailyNotesFolder
          (monthFoldersAux today s.dateFormat (computeThreshold today s.minAgeDays)
            (v.files.filter (fun g => parentOf g = s.dailyNotesFolder)) []) v []).1.files
          = v.files := createLoop_files _ _ _ _
    have hfold := moveLoop_folders s today (computeThreshold today s.minAgeDays)
      (v.files.filter (fun g => parentOf g = s.dailyNotesFolder))
      (createLoop s.dailyNotesFolder
        (monthFoldersAux today s.dateFormat (computeThreshold today s.minAgeDays)
          (v.files.filter (fun g => parentOf g = s.dailyNotesFolder)) []) v []).1 0
      (createLoop s.dailyNotesFolder
        (monthFoldersAux today s.dateFormat (computeThreshold today s.minAgeDays)
          (v.files.filter (fun g => parentOf g = s.dailyNotesFolder)) []) v []).2
    rw [h] at hfold
    have hb2 : s.dailyNotesFolder ∈ v2.folders := by
      have : v2.folders =
          (createLoop s.dailyNotesFolder
            (monthFoldersAux today s.dateFormat (computeThreshold today s.minAgeDays)
              (v.files.filter (fun g => parentOf g = s.dailyNotesFolder)) []) v []).1.folders :=
        hfold
      rw [this]
      exact createLoop_folders_mono _ _ _ _ _ hb
    have hkey : ∀ p ∈ v2.files.filter (fun g => parentOf g = s.dailyNotesFolder),
        classify today s.dateFormat (computeThreshold today s.minAgeDays) (nameOf p)
          = Classify.skip := by
      intro p hp
      have hp1 : p ∈ v2.files := (List.mem_filter.1 hp).1
      have hp2 : parentOf p = s.dailyNotesFolder :=
        of_decide_eq_true (List.mem_filter.1 hp).2
      obtain ⟨hin, hskip⟩ := moveLoop_ok_parent_skip s today
        (computeThreshold today s.minAgeDays)
        (v.files.filter (fun g => parentOf g = s.dailyNotesFolder)) _ 0 _ n v2 ops h
        p hp1 hp2
      apply hskip
      rw [hfiles1] at hin
      exact List.mem_filter.2 ⟨hin, by simp [hp2]⟩
    rw [archiveNotes_pos s today v2 hb2,
      monthFoldersAux_all_skip today s.dateFormat (computeThreshold today s.minAgeDays) _ []
        hkey]
    exact moveLoop_all_skip s today _ _ v2 0 [] hkey
  · rw [archiveNotes, if_neg hb] at h
    simp only [ArchOut.mk.injEq] at h
    obtain ⟨-, h2, -⟩ := h
    subst h2
    rw [archiveNotes, if_neg hb]

/-- Witness for C6: the second run on the state the example run produced
moves nothing and changes nothing. -/
theorem C6_witness :
    archiveNotes ⟨["Agenda"], "DD-MM-YY", 1, true, none⟩ ⟨2026, 2, 10⟩
      ⟨[["Agenda"], ["Agenda", "02-26"]], [["Agenda", "02-26", "05-02-26.md"]]⟩ =
      ⟨ArchRes.ok 0,
       ⟨[["Agenda"], ["Agenda", "02-26"]], [["Agenda", "02-26", "05-02-26.md"]]⟩, []⟩ :=
  C6_second_run_moves_nothing ⟨["Agenda"], "DD-MM-YY", 1, true, none⟩ ⟨2026, 2, 10⟩
    ⟨[["Agenda"]], [["Agenda", "05-02-26.md"]]⟩ 1
    ⟨[["Agenda"], ["Agenda", "02-26"]], [["Agenda", "02-26", "05-02-26.md"]]⟩
    [FsOp.createFolder ["Agenda", "02-26"],
     FsOp.renameFile ["Agenda", "05-02-26.md"] ["Agenda", "02-26", "05-02-26.md"]]
    (by decide)

/-- Claim C5: along every sequence of settings-producing or
settings-mutating operations of the plugin — loads of the persisted record
with defaults for missing fields, the four settings-tab edits, and
automatic runs — the minimum-age setting stays ≥ 1, in memory and in every
record the plugin persists. -/
theorem C5_minage_invariant : ∀ (events : List SettingsEvent),
    minAgeInv (events.foldl stepEvent initialState) := by
  have haux : ∀ (events : List SettingsEvent) (st : PluginState), minAgeInv st →
      minAgeInv (events.foldl stepEvent st) := by
    intro events
    induction events with
    | nil => intro st h; exact h
    | cons e rest ih =>
      intro st h
      exact ih _ (stepEvent_preserves_minAgeInv st e h)
  intro events
  exact haux events initialState ⟨by decide, fun d hd => nomatch hd⟩
